import Mathlib

/-!
Verification of the GAL geometric-algebra library (headers `entity.hpp` and
`pga.hpp`) against its natural-language specification.

The two headers in scope define the concrete entity adapters (generic
`entity`, `scalar`, and the PGA types `rotor`, `translator`, `plane`,
`point`, `vector`, `line`, `motor`) together with the closed-form `exp` and
`log` of PGA bivectors.  The symbolic core they consume (`expression.hpp`,
`engine.hpp`, `geometric_algebra.hpp`) is not part of the sources; where a
property depends on it, the relevant piece is modelled from the
specification and marked `Modelled from the spec:` in its doc comment.

Machine floating point is modelled by exact rationals / real numbers; the
IEEE NaN/Inf behaviour needed by the normalization claims is modelled by a
small four-state value type.
-/

/-- Modelled from the spec: the exact rational coefficient type `rat` of
`expression.hpp` ("exact fractions used as symbolic scalar coefficients").
Fractions are kept as a numerator/denominator pair; arithmetic is exact and
equality of the stored pairs is decidable.  (The reference keeps fractions
in lowest terms; the unreduced pairs used here denote the same values, and
`ratToField` below maps them to their exact field value.) -/
structure rat where
  num : Int
  den : Int
  deriving DecidableEq, Repr

/-- The rational constant 1 (`one` in the sources). -/
def one : rat := ⟨1, 1⟩

/-- The rational constant 0 (`zero` in the sources). -/
def zero : rat := ⟨0, 1⟩

/-- The rational constant -1 (`minus_one` in the sources). -/
def minus_one : rat := ⟨-1, 1⟩

/-- The rational constant -1/2 (`minus_one_half` in the sources). -/
def minus_one_half : rat := ⟨-1, 2⟩

/-- The rational `rat{n}` constructed from an integer. -/
def ratOfInt (n : Int) : rat := ⟨n, 1⟩

/-- Exact product of two rational coefficients. -/
def rat.mul (a b : rat) : rat := ⟨a.num * b.num, a.den * b.den⟩

/-- Exact sum of two rational coefficients. -/
def rat.add (a b : rat) : rat := ⟨a.num * b.den + b.num * a.den, a.den * b.den⟩

/-- Negation of a rational coefficient. -/
def rat.neg (a : rat) : rat := ⟨-a.num, a.den⟩

/-- A rational coefficient denotes zero exactly when its numerator is zero
(denominators are never zero in valid tables, per the spec). -/
def rat.isZero (a : rat) : Bool := a.num = 0

/-- The exact field value denoted by a rational coefficient. -/
def ratToField (K : Type) [Field K] (a : rat) : K := (a.num : K) / (a.den : K)

/-- Modelled from the spec: the indeterminate `ind` of `expression.hpp` — a
reference to one run-time input (by id) with an exponent-like multiplicity
(`degree`). -/
structure ind where
  id : Nat
  degree : rat
  deriving DecidableEq, Repr

/-- Modelled from the spec: the monomial `mon` of `expression.hpp` — a
rational coefficient `q`, a rational weight (`degree`, used for
ordering/collapsing), an indeterminate count, and an index into the
multivector's flat indeterminate list. -/
structure mon where
  q : rat
  degree : rat
  count : Nat
  ind_offset : Nat
  deriving DecidableEq, Repr

/-- Modelled from the spec: the term of `expression.hpp` — a monomial count,
an index into the flat monomial list, and the target basis blade
(`element`, a bitmask over basis vectors). -/
structure tm where
  count : Nat
  mon_offset : Nat
  element : Nat
  deriving DecidableEq, Repr

/-- Modelled from the spec: the `mv_size` counters of `expression.hpp`
(number of stored indeterminates, monomials and terms). -/
structure mv_size where
  ind : Nat
  mon : Nat
  tm : Nat
  deriving DecidableEq, Repr

/-- Modelled from the spec: the symbolic multivector `mv<A, I, M, T>` of
`expression.hpp`: size counters plus flat storage for indeterminates,
monomials and terms.  The three capacity fields record the template
arguments `I`, `M`, `T` (array capacities of the C++ type); the lists hold
the entries actually written by the initializer. -/
structure mv where
  capI : Nat
  capM : Nat
  capT : Nat
  size : mv_size
  inds : List ind
  mons : List mon
  terms : List tm
  deriving DecidableEq, Repr

/-- `detail::construct_ie<A>(id, ...)` from `entity.hpp` lines 9-17: for a
blade list `E` of length `count`, builds the multivector with
indeterminates `ind{id + N, one}`, monomials `mon{one, one, 1, N}` and
terms `term{1, N, E_N}`. -/
def construct_ie (id : Nat) (E : List Nat) : mv :=
  let count := E.length
  ⟨count, count, count, ⟨count, count, count⟩,
    (List.range count).map fun N => ⟨id + N, one⟩,
    (List.range count).map fun N => ⟨one, one, 1, N⟩,
    E.enum.map fun p => ⟨1, p.1, p.2⟩⟩

/-- `scalar::ie` from `entity.hpp` lines 136-139. -/
def scalar_ie (id : Nat) : mv :=
  ⟨1, 1, 1, ⟨1, 1, 1⟩, [⟨id, one⟩], [⟨one, ratOfInt 1, 0, 1⟩], [⟨1, 0, 0⟩]⟩

/-- `pga::rotor::ie` from `pga.hpp` lines 118-130 (capacities `mv<_,8,4,4>`). -/
def rotor_ie (id : Nat) : mv :=
  ⟨8, 4, 4, ⟨7, 4, 4⟩,
    [⟨id, one⟩, ⟨id + 1, one⟩, ⟨id + 4, one⟩, ⟨id + 1, one⟩, ⟨id + 3, one⟩,
      ⟨id + 1, one⟩, ⟨id + 2, one⟩],
    [⟨one, one, 1, 0⟩, ⟨one, one, 1, 1⟩, ⟨minus_one, ratOfInt 2, 2, 2⟩,
      ⟨one, ratOfInt 2, 2, 3⟩],
    [⟨1, 0, 0b0⟩, ⟨1, 1, 0b110⟩, ⟨1, 2, 0b1010⟩, ⟨1, 3, 0b1100⟩]⟩

/-- `pga::translator::ie` from `pga.hpp` lines 191-207 (capacities `mv<_,6,4,4>`). -/
def translator_ie (id : Nat) : mv :=
  ⟨6, 4, 4, ⟨6, 4, 4⟩,
    [⟨id, one⟩, ⟨id + 1, one⟩, ⟨id, one⟩, ⟨id + 1, one⟩, ⟨id, one⟩, ⟨id + 2, one⟩],
    [⟨one, zero, 0, 0⟩, ⟨minus_one_half, ratOfInt 2, 2, 1⟩,
      ⟨minus_one_half, ratOfInt 2, 2, 2⟩, ⟨minus_one_half, ratOfInt 2, 2, 3⟩],
    [⟨1, 0, 0b0⟩, ⟨1, 1, 0b11⟩, ⟨1, 2, 0b101⟩, ⟨1, 3, 0b1001⟩]⟩

/-- `pga::plane::ie` from `pga.hpp` lines 245-249: `construct_ie` over the
four grade-1 blades. -/
def plane_ie (id : Nat) : mv := construct_ie id [0b1, 0b10, 0b100, 0b1000]

/-- `pga::point::ie` from `pga.hpp` lines 307-325 (capacities `mv<_,3,4,4>`). -/
def point_ie (id : Nat) : mv :=
  ⟨3, 4, 4, ⟨3, 4, 4⟩,
    [⟨id + 2, one⟩, ⟨id + 1, one⟩, ⟨id, one⟩],
    [⟨minus_one, one, 1, 0⟩, ⟨one, one, 1, 1⟩, ⟨minus_one, one, 1, 2⟩,
      ⟨one, zero, 0, 0⟩],
    [⟨1, 0, 0b111⟩, ⟨1, 1, 0b1011⟩, ⟨1, 2, 0b1101⟩, ⟨1, 3, 0b1110⟩]⟩

/-- `pga::vector::ie` from `pga.hpp` lines 387-405 (capacities `mv<_,3,3,3>`,
size counters written as `mv_size{3, 4, 4}` in the source). -/
def vector_ie (id : Nat) : mv :=
  ⟨3, 3, 3, ⟨3, 4, 4⟩,
    [⟨id + 2, one⟩, ⟨id + 1, one⟩, ⟨id, one⟩],
    [⟨minus_one, one, 1, 0⟩, ⟨one, one, 1, 1⟩, ⟨minus_one, one, 1, 2⟩],
    [⟨1, 0, 0b111⟩, ⟨1, 1, 0b1011⟩, ⟨1, 2, 0b1101⟩]⟩

/-- `pga::line::ie` from `pga.hpp` lines 472-499 (capacities `mv<_,6,6,6>`). -/
def line_ie (id : Nat) : mv :=
  ⟨6, 6, 6, ⟨6, 6, 6⟩,
    [⟨id + 3, one⟩, ⟨id + 4, one⟩, ⟨id + 2, one⟩, ⟨id + 5, one⟩, ⟨id + 1, one⟩,
      ⟨id, one⟩],
    [⟨one, one, 1, 0⟩, ⟨one, one, 1, 1⟩, ⟨one, one, 1, 2⟩, ⟨one, one, 1, 3⟩,
      ⟨one, one, 1, 4⟩, ⟨one, one, 1, 5⟩],
    [⟨1, 0, 0b11⟩, ⟨1, 1, 0b101⟩, ⟨1, 2, 0b110⟩, ⟨1, 3, 0b1001⟩, ⟨1, 4, 0b1010⟩,
      ⟨1, 5, 0b1100⟩]⟩

/-- The blade list of `pga::motor` (`entity<pga_algebra, T, 0, 0b11, 0b101,
0b110, 0b1001, 0b1010, 0b1100, 0b1111>`, `pga.hpp` line 227). -/
def motor_elements : List Nat := [0, 0b11, 0b101, 0b110, 0b1001, 0b1010, 0b1100, 0b1111]

/-- `rotor::ind_count()` from `pga.hpp` lines 79-82. -/
def rotor_ind_count : Nat := 5

/-- `translator::ind_count()` from `pga.hpp` lines 159-162. -/
def translator_ind_count : Nat := 4

/-- `scalar::ind_count()` from `entity.hpp` lines 130-133. -/
def scalar_ind_count : Nat := 1

/-- The input ids referenced by one monomial of a multivector: the ids of
the indeterminates in its `[ind_offset, ind_offset + count)` slice of the
flat indeterminate list. -/
def mon_ref_ids (M : mv) (m : mon) : List Nat :=
  ((M.inds.drop m.ind_offset).take m.count).map ind.id

/-- All input ids referenced by a multivector through its monomials'
indeterminate ranges. -/
def referenced_ids (M : mv) : List Nat := M.mons.flatMap (mon_ref_ids M)

/-- Modelled from the spec: evaluation of one indeterminate against the
caller's numeric inputs (`engine.hpp` is not in the sources): the input with
the indeterminate's id, raised to its multiplicity. -/
def eval_ind (K : Type) [Field K] (inp : Nat → K) (i : ind) : K :=
  inp i.id ^ i.degree.num.toNat

/-- Modelled from the spec: evaluation of one monomial — its rational
coefficient times the product of its indeterminate slice. -/
def eval_mon (K : Type) [Field K] (inp : Nat → K) (inds : List ind) (m : mon) : K :=
  ratToField K m.q * (((inds.drop m.ind_offset).take m.count).map (eval_ind K inp)).prod

/-- Modelled from the spec: evaluation of one term — the sum of its monomial
slice. -/
def eval_tm (K : Type) [Field K] (inp : Nat → K) (inds : List ind) (mons : List mon)
    (t : tm) : K :=
  (((mons.drop t.mon_offset).take t.count).map (eval_mon K inp inds)).sum

/-- Modelled from the spec: numeric evaluation of a symbolic multivector
against a live input array, producing one `(blade, value)` output slot per
term. -/
def mv_eval (K : Type) [Field K] (M : mv) (inp : Nat → K) : List (Nat × K) :=
  M.terms.map fun t => (t.element, eval_tm K inp M.inds M.mons t)

/-- The blade tags of the entity produced by evaluating a multivector. -/
def mv_elements (M : mv) : List Nat := M.terms.map tm.element

/-- `entity::select(uint8_t e)` from `entity.hpp` lines 63-73: scan the
blade tags in order, return the matching slot's datum, or a
value-initialized `T{}` (zero for the arithmetic types used here) when no
tag matches.  The entity is read, never written. -/
def eselect (K : Type) [Zero K] : List Nat → List K → Nat → K
  | [], _, _ => 0
  | _ :: _, [], _ => 0
  | el :: els, d :: ds, e => if el = e then d else eselect K els ds e

/-- `pga::point::point(entity)` from `pga.hpp` lines 343-352: select the
`e012, e013, e023, e123` slots, divide by the `e123` slot, and unpack
`(x, y, z)` (returned here in field order `x, y, z`). -/
def point_from_entity (K : Type) [Field K] (els : List Nat) (ds : List K) : K × K × K :=
  let input := [eselect K els ds 0b111, eselect K els ds 0b1011,
    eselect K els ds 0b1101, eselect K els ds 0b1110]
  let w_inv := 1 / input.getD 3 0
  (-(input.getD 2 0) * w_inv, input.getD 1 0 * w_inv, -(input.getD 0 0) * w_inv)

/-- The blade list read by `pga::line::line(entity)` (`pga.hpp` line 522). -/
def line_ctor_elements : List Nat := [0b11, 0b101, 0b100, 0b1001, 0b1010, 0b1100]

/-- `pga::line::line(entity)` from `pga.hpp` lines 520-523: the six Plucker
slots are read with `select` over `line_ctor_elements`. -/
def line_from_entity (K : Type) [Zero K] (els : List Nat) (ds : List K) : List K :=
  line_ctor_elements.map (eselect K els ds)

/-- C1. Constructing `point(x,y,z)`, taking its symbolic multivector
`point::ie`, evaluating it against the point's data, and converting the
resulting entity back through the `point(entity)` constructor reproduces
`(x, y, z)` exactly (hence to floating tolerance), for every rational
triple — in particular `(1,2,3)`, `(0,0,0)` and `(-1.5, 2.5, 100)`. -/
theorem point_roundtrip_exact (x y z : ℚ) :
    point_from_entity ℚ (mv_elements (point_ie 0))
      ((mv_eval ℚ (point_ie 0) fun i => [x, y, z].getD i 0).map Prod.snd)
      = (x, y, z) := by
  simp [point_from_entity, mv_elements, mv_eval, point_ie, eval_tm, eval_mon,
    eval_ind, eselect, ratToField, one, zero, minus_one]

/-- C2 (code defect). The spec requires `ie(id)` to be anchored at the
contiguous id range `{id, ..., id + ind_count() - 1}` (as the rotor's own
comments `Cos\theta := ID 0 ... z := ID 4` document), but the stored
monomial `(count, ind_offset)` slices of `rotor::ie` never reach the
indeterminate carrying id+2 (the `x` input), `translator::ie` reaches only
`{id, id+1}` of its four ids, and `scalar::ie`'s monomial has `count = 0`
and references no indeterminate at all. -/
theorem ie_id_coverage_bug :
    rotor_ind_count = 5 ∧ (2 ∉ referenced_ids (rotor_ie 0)) ∧
    translator_ind_count = 4 ∧ (2 ∉ referenced_ids (translator_ie 0)) ∧
    (3 ∉ referenced_ids (translator_ie 0)) ∧
    scalar_ind_count = 1 ∧ referenced_ids (scalar_ie 0) = [] := by decide

/-- C5 (code defect). `vector::ie` returns an `mv<_, 3, 3, 3>` (monomial and
term capacity 3) whose `mv_size` counters are written as `{3, 4, 4}`: the
monomial and term counters neither equal the number of entries actually
stored (3) nor stay within the capacity (3 < 4), violating the size-counter
invariant each `ie` is supposed to keep. -/
theorem vector_ie_size_counter_bug :
    (vector_ie 0).size.mon = 4 ∧ (vector_ie 0).mons.length = 3 ∧
    (vector_ie 0).capM = 3 ∧ (vector_ie 0).size.tm = 4 ∧
    (vector_ie 0).terms.length = 3 ∧ (vector_ie 0).capT = 3 := by decide

/-- C10 (code defect). `line::ie` emits the blades `e01, e02, e12, e03, e13,
e23` `= [0b11, 0b101, 0b110, 0b1001, 0b1010, 0b1100]`, but the
`line(entity)` converting constructor reads `0b100` (the vector blade `e2`)
in the third slot instead of `0b110`: converting an entity that holds a
line's evaluated coefficients therefore zeroes the `dz` Plucker coordinate
(slot 2) instead of copying it. -/
theorem line_ctor_blade_mismatch :
    mv_elements (line_ie 0) = [0b11, 0b101, 0b110, 0b1001, 0b1010, 0b1100] ∧
    line_ctor_elements ≠ mv_elements (line_ie 0) ∧
    line_from_entity ℤ (mv_elements (line_ie 0)) [10, 20, 30, 40, 50, 60]
      = [10, 20, 0, 40, 50, 60] := by decide

/-- Modelled from the spec: a four-state IEEE-style value (finite real,
signed infinities, NaN), used to state the documented "NaN/Inf by IEEE
semantics, not checked or sanitized" behaviour of the numeric layer.
Signed zero is not modelled; division of a positive number by zero yields
the positive infinity, as for IEEE `+0`. -/
inductive fpv where
  | fin : ℝ → fpv
  | pinf : fpv
  | ninf : fpv
  | nan : fpv

/-- Modelled from the spec: IEEE addition on `fpv`. -/
noncomputable def fp_add : fpv → fpv → fpv
  | .nan, _ => .nan
  | _, .nan => .nan
  | .fin a, .fin b => .fin (a + b)
  | .fin _, .pinf => .pinf
  | .fin _, .ninf => .ninf
  | .pinf, .fin _ => .pinf
  | .ninf, .fin _ => .ninf
  | .pinf, .pinf => .pinf
  | .ninf, .ninf => .ninf
  | .pinf, .ninf => .nan
  | .ninf, .pinf => .nan

/-- Modelled from the spec: IEEE multiplication on `fpv`; `0 * inf` is NaN. -/
noncomputable def fp_mul : fpv → fpv → fpv
  | .nan, _ => .nan
  | _, .nan => .nan
  | .fin a, .fin b => .fin (a * b)
  | .fin a, .pinf => if a = 0 then .nan else if 0 < a then .pinf else .ninf
  | .fin a, .ninf => if a = 0 then .nan else if 0 < a then .ninf else .pinf
  | .pinf, .fin b => if b = 0 then .nan else if 0 < b then .pinf else .ninf
  | .ninf, .fin b => if b = 0 then .nan else if 0 < b then .ninf else .pinf
  | .pinf, .pinf => .pinf
  | .ninf, .ninf => .pinf
  | .pinf, .ninf => .ninf
  | .ninf, .pinf => .ninf

/-- Modelled from the spec: IEEE division on `fpv`; a nonzero finite number
divided by zero yields a signed infinity, `0/0` is NaN. -/
noncomputable def fp_div : fpv → fpv → fpv
  | .nan, _ => .nan
  | _, .nan => .nan
  | .fin a, .fin b =>
      if b = 0 then (if a = 0 then .nan else if 0 < a then .pinf else .ninf)
      else .fin (a / b)
  | .fin _, .pinf => .fin 0
  | .fin _, .ninf => .fin 0
  | .pinf, .fin b => if 0 ≤ b then .pinf else .ninf
  | .ninf, .fin b => if 0 ≤ b then .ninf else .pinf
  | _, _ => .nan

/-- Modelled from the spec: IEEE square root on `fpv`. -/
noncomputable def fp_sqrt : fpv → fpv
  | .nan => .nan
  | .pinf => .pinf
  | .ninf => .nan
  | .fin a => if a < 0 then .nan else .fin (Real.sqrt a)

/-- `rotor::normalize` from `pga.hpp` lines 104-110: scale `(x, y, z)` by
`1 / sqrt(x*x + y*y + z*z)` with no guard; `cos_theta`/`sin_theta` are not
touched. -/
noncomputable def rotor_normalize (c s x y z : fpv) : fpv × fpv × fpv × fpv × fpv :=
  let l2_inv := fp_div (.fin 1) (fp_sqrt (fp_add (fp_add (fp_mul x x) (fp_mul y y)) (fp_mul z z)))
  (c, s, fp_mul x l2_inv, fp_mul y l2_inv, fp_mul z l2_inv)

/-- `translator::normalize` from `pga.hpp` lines 182-188: same scaling, with
the distance `d` untouched. -/
noncomputable def translator_normalize (d x y z : fpv) : fpv × fpv × fpv × fpv :=
  let l2_inv := fp_div (.fin 1) (fp_sqrt (fp_add (fp_add (fp_mul x x) (fp_mul y y)) (fp_mul z z)))
  (d, fp_mul x l2_inv, fp_mul y l2_inv, fp_mul z l2_inv)

/-- C7. `rotor::normalize` and `translator::normalize` scale `(x, y, z)` by
`1/sqrt(x*x + y*y + z*z)` with no guard or clamping: on a zero-length input
the components become NaN (`1/sqrt(0) = +inf`, then `0 * inf = NaN`), the
remaining fields (`cos_theta`/`sin_theta`, `d`) are left unchanged, and on
a positive-length input the components are exactly the unguarded scaled
values. -/
theorem normalize_zero_length_nan :
    (∀ c s : fpv, rotor_normalize c s (.fin 0) (.fin 0) (.fin 0) = (c, s, .nan, .nan, .nan)) ∧
    (∀ d : fpv, translator_normalize d (.fin 0) (.fin 0) (.fin 0) = (d, .nan, .nan, .nan)) ∧
    (∀ c s x y z : ℝ, 0 < x * x + y * y + z * z →
      rotor_normalize (.fin c) (.fin s) (.fin x) (.fin y) (.fin z)
        = (.fin c, .fin s, .fin (x * (1 / Real.sqrt (x * x + y * y + z * z))),
            .fin (y * (1 / Real.sqrt (x * x + y * y + z * z))),
            .fin (z * (1 / Real.sqrt (x * x + y * y + z * z))))) := by
  refine ⟨fun c s => ?_, fun d => ?_, fun c s x y z h => ?_⟩
  · simp [rotor_normalize, fp_mul, fp_add, fp_sqrt, fp_div, Real.sqrt_zero]
  · simp [translator_normalize, fp_mul, fp_add, fp_sqrt, fp_div, Real.sqrt_zero]
  · have hs : ¬ (x * x + y * y + z * z < 0) := by nlinarith
    have hq : Real.sqrt (x * x + y * y + z * z) ≠ 0 := by
      have := Real.sqrt_pos.mpr h
      exact ne_of_gt this
    simp only [rotor_normalize, fp_mul, fp_add, fp_sqrt, fp_div,
      if_neg hs, if_neg hq]

/-- Witness for the hypothesis of `normalize_zero_length_nan` at
`(c, s, x, y, z) = (5, 7, 1, 0, 0)`. -/
theorem normalize_zero_length_nan_check :
    rotor_normalize (.fin 5) (.fin 7) (.fin 1) (.fin 0) (.fin 0)
      = (.fin 5, .fin 7, .fin 1, .fin 0, .fin 0) := by
  have h := normalize_zero_length_nan.2.2 5 7 1 0 0 (by norm_num)
  simpa [Real.sqrt_one] using h

/-- `rotor::get` (`pga.hpp` 142-145), `translator::get` (219-222),
`plane::get` (284-288), `point::get` (364-368), `vector::get` (443-447) and
`line::get` (539-543) all read `return NAN;` regardless of index or state. -/
def rotor_get (data : List fpv) (i : Nat) : fpv := .nan

/-- See `rotor_get`. -/
def translator_get (data : List fpv) (i : Nat) : fpv := .nan

/-- See `rotor_get`. -/
def plane_get (data : List fpv) (i : Nat) : fpv := .nan

/-- See `rotor_get`. -/
def point_get (data : List fpv) (i : Nat) : fpv := .nan

/-- See `rotor_get`. -/
def vector_get (data : List fpv) (i : Nat) : fpv := .nan

/-- See `rotor_get`. -/
def line_get (data : List fpv) (i : Nat) : fpv := .nan

/-- `entity::get` from `entity.hpp` lines 112-116: `return {};` — a
default-constructed (value-initialized) `T`, regardless of index or stored
data. -/
def entity_get (T : Type) [Inhabited T] (data : List T) (i : Nat) : T := default

/-- `scalar::get` from `entity.hpp` lines 161-165: `return {};`. -/
def scalar_get (T : Type) [Inhabited T] (v : T) (i : Nat) : T := default

/-- C8. For every index, `get(size_t)` returns NaN on `rotor`, `translator`,
`plane`, `point`, `vector` and `line`, and a default-constructed
(value-initialized) `T` on the generic `entity` and on `scalar`, regardless
of the object's stored data. -/
theorem get_accessors_sentinel :
    (∀ d i, rotor_get d i = .nan) ∧ (∀ d i, translator_get d i = .nan) ∧
    (∀ d i, plane_get d i = .nan) ∧ (∀ d i, point_get d i = .nan) ∧
    (∀ d i, vector_get d i = .nan) ∧ (∀ d i, line_get d i = .nan) ∧
    (∀ (T : Type) [Inhabited T] (d : List T) (i : Nat), entity_get T d i = default) ∧
    (∀ (T : Type) [Inhabited T] (v : T) (i : Nat), scalar_get T v i = default) :=
  ⟨fun _ _ => rfl, fun _ _ => rfl, fun _ _ => rfl, fun _ _ => rfl, fun _ _ => rfl,
    fun _ _ => rfl, fun _ _ _ _ => rfl, fun _ _ _ _ => rfl⟩

/-- C9. `entity::select(e)` returns the stored datum of the first slot whose
blade tag equals `e` (the unique such slot when the tags are distinct), and
the value-initialized zero when `e` is not among the tags; it reads the
entity without modifying it (the model is a pure function of the tag and
data lists). -/
theorem entity_select_spec (K : Type) [Zero K] (els : List Nat) (ds : List K) (e : Nat)
    (hnd : els.Nodup) (hlen : ds.length = els.length) :
    (∀ i (hi : i < els.length), els.get ⟨i, hi⟩ = e →
      eselect K els ds e = ds.get ⟨i, by omega⟩) ∧
    (e ∉ els → eselect K els ds e = 0) := by
  induction els generalizing ds with
  | nil =>
      refine ⟨fun i hi _ => absurd hi (by simp), fun _ => ?_⟩
      cases ds <;> rfl
  | cons a as ih =>
      match ds, hlen with
      | d :: ds2, hlen =>
        have hlen2 : ds2.length = as.length := by simpa using hlen
        have hnd2 : as.Nodup := hnd.of_cons
        have hna : a ∉ as := by
          simp only [List.nodup_cons] at hnd
          exact hnd.1
        refine ⟨fun i hi hget => ?_, fun hmem => ?_⟩
        · match i with
          | 0 =>
              simp only [List.get] at hget
              simp [eselect, hget]
          | Nat.succ n =>
              have hn : n < as.length := by simpa using hi
              have hget2 : as.get ⟨n, hn⟩ = e := by simpa [List.get] using hget
              have hne : a ≠ e := by
                intro hae
                exact hna (hae ▸ hget2 ▸ List.get_mem as n hn)
              simpa [eselect, hne] using (ih ds2 hnd2 hlen2).1 n hn hget2
        · have hne : a ≠ e := fun hae => hmem (hae ▸ List.mem_cons_self a as)
          have hnm : e ∉ as := fun hin => hmem (List.mem_cons_of_mem a hin)
          simpa [eselect, hne] using (ih ds2 hnd2 hlen2).2 hnm

/-- Witness for `entity_select_spec` on the concrete entity with blade tags
`[3, 5]` and data `[10, 20]`: selecting tag 5 yields 20, selecting the
absent tag 7 yields 0. -/
theorem entity_select_spec_check :
    eselect ℤ [3, 5] [10, 20] 5 = 20 ∧ eselect ℤ [3, 5] [10, 20] 7 = 0 := by
  have h5 := entity_select_spec ℤ [3, 5] [10, 20] 5 (by decide) (by decide)
  have h7 := entity_select_spec ℤ [3, 5] [10, 20] 7 (by decide) (by decide)
  exact ⟨h5.1 1 (by decide) rfl, h7.2 (by decide)⟩

/-- The grade of a blade: the popcount of its basis-vector bitmask (spec
glossary; 4 basis vectors in the PGA instance). -/
def blade_grade (b : Nat) : Nat := ((List.range 4).filter b.testBit).length

/-- Modelled from the spec: the square of each basis vector of the algebra
built from `metric<3, 0, 1>`.  Per the source comment in `pga.hpp` lines
16-18 the algebra fixes `e0^2 := 1` by convention, so all four generators
square to `+1`. -/
def metric_sq (i : Nat) : rat := one

/-- The number of basis vectors of blade `a` strictly above index `i`
(transpositions needed to move `e_i` through them). -/
def count_above (a i : Nat) : Nat :=
  ((List.range 4).filter fun j => decide (i < j) && a.testBit j).length

/-- The total number of transpositions performed when multiplying blade `a`
by blade `b` (each basis vector of `b`, taken in ascending order, moves
left past the higher basis vectors of `a`). -/
def swap_count (a b : Nat) : Nat :=
  (((List.range 4).filter b.testBit).map (count_above a)).sum

/-- Modelled from the spec: the sign/scale factor of the algebra's
blade-product rule `(blade_a, blade_b) -> (sign, result_blade)`: the parity
of the transpositions times the metric squares of the basis vectors shared
by the two blades; the result blade is the xor of the masks. -/
def blade_sign (a b : Nat) : rat :=
  (((List.range 4).filter fun i => a.testBit i && b.testBit i).map metric_sq).foldr
    rat.mul ⟨(-1) ^ swap_count a b, 1⟩

/-- Modelled from the spec: a monomial of the simplifier in canonical form —
a rational coefficient and a by-id sorted list of (input id, multiplicity)
pairs. -/
structure smon where
  q : rat
  inds : List (Nat × Nat)
  deriving DecidableEq, Repr

/-- Insert an (id, multiplicity) pair into a sorted indeterminate list,
adding multiplicities when the same id appears (spec 4.2: "if the same id
appears in both operands, multiplicities add"). -/
def ins_ind (p : Nat × Nat) : List (Nat × Nat) → List (Nat × Nat)
  | [] => [p]
  | q :: rest =>
      if p.1 < q.1 then p :: q :: rest
      else if p.1 = q.1 then (q.1, q.2 + p.2) :: rest
      else q :: ins_ind p rest

/-- Sort an indeterminate list by id, merging duplicate ids. -/
def norm_inds (l : List (Nat × Nat)) : List (Nat × Nat) := l.foldr ins_ind []

/-- A raw symbolic multivector: a list of (blade, monomial) pairs, possibly
repeating blades (the pre-merge state of spec 4.3). -/
abbrev smv : Type := List (Nat × smon)

/-- The deterministic output layout of spec 4.3(d): blades grouped by grade
(popcount), ascending blade id within a grade, for the 16 blades of the
PGA instance. -/
def blade_order : List Nat := [0, 1, 2, 4, 8, 3, 5, 6, 9, 10, 12, 7, 11, 13, 14, 15]

/-- Merge one monomial into a bucket of monomials under the same blade:
coefficients add when the indeterminate lists are identical, otherwise the
monomial is kept separately (spec 4.3(b)). -/
def add_mon (m : smon) : List smon → List smon
  | [] => [m]
  | n :: rest =>
      if n.inds = m.inds then ⟨n.q.add m.q, n.inds⟩ :: rest else n :: add_mon m rest

/-- Canonicalize the monomial bucket of one blade: group like monomials,
then drop dead (zero-coefficient) monomials (spec 4.3(b)-(c)). -/
def merge_mons (ms : List smon) : List smon :=
  (ms.foldl (fun acc m => add_mon m acc) []).filter fun m => !m.q.isZero

/-- Modelled from the spec: canonicalization of a raw symbolic multivector —
group terms by blade, merge like monomials, drop dead monomials and empty
blades, and lay the surviving blades out in grade order (spec 4.3). -/
def canonicalize (x : smv) : smv :=
  blade_order.flatMap fun b =>
    (merge_mons (((x.filter fun p => p.1 == b).map Prod.snd))).map fun m => (b, m)

/-- Modelled from the spec: the geometric product of two canonical symbolic
multivectors — for every pair of terms consult the blade-product rule,
multiply the monomials (sign folded into the rational coefficient,
multiplicities of shared ids adding), then canonicalize (spec 4.4). -/
def smv_mul (x y : smv) : smv :=
  canonicalize <| x.flatMap fun p =>
    y.map fun r =>
      (p.1 ^^^ r.1,
        ⟨((blade_sign p.1 r.1).mul p.2.q).mul r.2.q, p.2.inds.foldr ins_ind r.2.inds⟩)

/-- Negation of a symbolic multivector (scalar multiply by -1; never changes
blade structure, spec 4.4). -/
def smv_neg (x : smv) : smv := x.map fun p => (p.1, ⟨p.2.q.neg, p.2.inds⟩)

/-- The output slots (surviving blades) of a symbolic multivector. -/
def smv_blades (x : smv) : List Nat := (x.map Prod.fst).dedup

/-- A unit basis indeterminate-free multivector: the given blade with
constant coefficient 1. -/
def basis_smv (b : Nat) : smv := [(b, ⟨one, []⟩)]

/-- The canonical multivector of the scalar 1. -/
def one_smv : smv := [(0, ⟨⟨1, 1⟩, []⟩)]

/-- Conversion of a flat `mv` (the storage format of the entity adapters)
into the raw symbolic form consumed by the simplifier. -/
def flat_to_smv (M : mv) : smv :=
  M.terms.flatMap fun t =>
    ((M.mons.drop t.mon_offset).take t.count).map fun m =>
      (t.element,
        ⟨m.q, norm_inds (((M.inds.drop m.ind_offset).take m.count).map
          fun i => (i.id, i.degree.num.toNat))⟩)

/-- C3. In the 3D PGA instance (`metric<3, 0, 1>` with the `e0^2 := 1`
convention), the geometric product of each basis vector with itself
canonicalizes to the scalar 1, and the products of distinct basis vectors
anticommute, evaluated through the symbolic geometric product on unit basis
elements. -/
theorem pga_basis_product_signs :
    (∀ i : Fin 4, smv_mul (basis_smv (2 ^ i.val)) (basis_smv (2 ^ i.val)) = one_smv) ∧
    (∀ i j : Fin 4, i ≠ j →
      smv_mul (basis_smv (2 ^ i.val)) (basis_smv (2 ^ j.val)) =
        smv_neg (smv_mul (basis_smv (2 ^ j.val)) (basis_smv (2 ^ i.val)))) := by
  decide

/-- Witness for `pga_basis_product_signs`: `e0 * e0 = 1` and
`e0 * e1 = -(e1 * e0)` at the concrete pair `(i, j) = (0, 1)`. -/
theorem pga_basis_product_signs_check :
    smv_mul (basis_smv 1) (basis_smv 2) = smv_neg (smv_mul (basis_smv 2) (basis_smv 1)) :=
  pga_basis_product_signs.2 0 1 (by decide)

/-- C6. The canonical multivector of the symbolic self-product `l * l` of the
generic line (the six-indeterminate bivector emitted by `line::ie`) has
exactly the two surviving output slots the `static_assert(l2.size() == 2)`
in `exp`/`log` relies on: the scalar and the pseudoscalar, in that grade
order. -/
theorem line_square_two_slots :
    smv_blades (smv_mul (flat_to_smv (line_ie 0)) (flat_to_smv (line_ie 0)))
      = [0, 0b1111] ∧
    (smv_mul (flat_to_smv (line_ie 0)) (flat_to_smv (line_ie 0))).length = 9 ∧
    (smv_blades (smv_mul (flat_to_smv (line_ie 0)) (flat_to_smv (line_ie 0)))).length
      = 2 := by decide

/-- A numeric (evaluated) multivector: raw (blade, coefficient) pairs over
the reals; the coefficient of a blade is the sum of its entries. -/
abbrev rmv : Type := List (Nat × ℝ)

/-- Modelled from the spec: the numeric geometric product — every pair of
entries is combined through the algebra's blade-product rule, the
rational sign folded into the real coefficient. -/
noncomputable def rmv_mul (x y : rmv) : rmv :=
  x.flatMap fun p => y.map fun r =>
    (p.1 ^^^ r.1, ratToField ℝ (blade_sign p.1 r.1) * p.2 * r.2)

/-- The numeric coefficient a multivector assigns to a blade (0 when the
blade does not appear, as `entity::select` returns for a missing tag). -/
noncomputable def rcoeff (x : rmv) (b : Nat) : ℝ :=
  ((x.filter fun p => p.1 == b).map Prod.snd).sum

/-- Numeric evaluation of a flat symbolic multivector against an entity's
data array (base id 0). -/
noncomputable def rmv_of (M : mv) (vals : List ℝ) : rmv :=
  mv_eval ℝ M fun i => vals.getD i 0

/-- The data array written by `rotor::rotor(theta, x, y, z)` (`pga.hpp`
lines 94-100): `[cos(0.5 theta), sin(0.5 theta), x, y, z]`. -/
noncomputable def rotor_data (theta x y z : ℝ) : List ℝ :=
  [Real.cos (0.5 * theta), Real.sin (0.5 * theta), x, y, z]

/-- The data array written by `translator::translator(d, x, y, z)`
(`pga.hpp` lines 173-178). -/
def translator_data (d x y z : ℝ) : List ℝ := [d, x, y, z]

/-- Modelled from the spec: composing a rotor with a translator through the
engine (`compute([](auto r, auto t) { return r * t; }, r, t)`): evaluate
both `ie` forms against the live data and lower the geometric product onto
the motor's eight slots. -/
noncomputable def compose_motor (theta x y z d tx ty tz : ℝ) : List ℝ :=
  motor_elements.map
    (rcoeff (rmv_mul (rmv_of (rotor_ie 0) (rotor_data theta x y z))
      (rmv_of (translator_ie 0) (translator_data d tx ty tz))))

/-- Modelled from the spec: `std::atan2`, as the principal argument of the
complex number `x + y i`. -/
noncomputable def atan2 (y x : ℝ) : ℝ := Complex.arg ⟨x, y⟩

/-- The line data `select`-ed out of a motor by `log` (`pga.hpp` line 597):
the motor's six bivector slots, passed to the `line(std::array)`
constructor in order `dx, dy, dz, mx, my, mz`. -/
def log_l (m : List ℝ) : List ℝ :=
  [m.getD 1 0, m.getD 2 0, m.getD 3 0, m.getD 4 0, m.getD 5 0, m.getD 6 0]

/-- The numeric multivector of a `line` value: `line::ie` evaluated against
its six-slot data array. -/
noncomputable def line_rmv (l : List ℝ) : rmv := rmv_of (line_ie 0) l

/-- `auto l2 = compute([](auto l) { return l * l; }, l)` as used by both
`exp` (line 556) and `log` (line 599): the numeric self-product of a line. -/
noncomputable def line_sq (l : List ℝ) : rmv := rmv_mul (line_rmv l) (line_rmv l)

/-- `s2 = std::sqrt(-l2[0])` in `log` (`pga.hpp` line 601). -/
noncomputable def log_s2 (m : List ℝ) : ℝ :=
  Real.sqrt (-(rcoeff (line_sq (log_l m)) 0))

/-- `p2 = -l2[1] / (2 * s2)` in `log` (`pga.hpp` line 602). -/
noncomputable def log_p2 (m : List ℝ) : ℝ :=
  -(rcoeff (line_sq (log_l m)) 15) / (2 * log_s2 m)

/-- `u` in `log` (`pga.hpp` lines 604-606): branch on `|s1| < 1e-6`. -/
noncomputable def log_u (m : List ℝ) : ℝ :=
  if |m.getD 0 0| < 1e-6 then atan2 (-(m.getD 7 0)) (log_p2 m)
  else atan2 (log_s2 m) (m.getD 0 0)

/-- `v` in `log` (`pga.hpp` line 607). -/
noncomputable def log_v (m : List ℝ) : ℝ :=
  if |m.getD 0 0| < 1e-6 then -(m.getD 7 0) / log_s2 m
  else log_p2 m / (m.getD 0 0)

/-- The result multivector `(u + v*ps) * norm_inv * l` computed by `log`
(`pga.hpp` lines 608-610), with `norm_inv = {-s2, p2 / (2 * s2)}`. -/
noncomputable def log_res (m : List ℝ) : rmv :=
  rmv_mul
    (rmv_mul [(0, log_u m), (0b1111, log_v m)]
      [(0, -(log_s2 m)), (0b1111, log_p2 m / (2 * log_s2 m))])
    (line_rmv (log_l m))

/-- `pga::log` (`pga.hpp` lines 576-611): the returned `line<T>` — the
computed entity converted through the `line(entity)` constructor, i.e. the
result's coefficients read back over `line_ctor_elements` (including its
`0b100` slot). -/
noncomputable def log_motor (m : List ℝ) : List ℝ :=
  line_ctor_elements.map (rcoeff (log_res m))

/-- `s = -l2[0]` and `u = std::sqrt(s)` in `exp` (`pga.hpp` lines 558-559). -/
noncomputable def exp_u (l : List ℝ) : ℝ :=
  Real.sqrt (-(rcoeff (line_sq l) 0))

/-- `v = -l2[1] / (2 * u)` in `exp` (`pga.hpp` line 560). -/
noncomputable def exp_v (l : List ℝ) : ℝ :=
  -(rcoeff (line_sq l) 15) / (2 * exp_u l)

/-- The result multivector `real + ideal * inv_norm * l` computed by `exp`
(`pga.hpp` lines 564-573), with `inv_norm = {1/u, -v/s}` (the source
overwrites `l2[1] = v` before reading it back), `real = {cos u, -v sin u}`
and `ideal = {sin u, v cos u}`; the sum is the concatenation of the raw
entry lists. -/
noncomputable def exp_res (l : List ℝ) : rmv :=
  [(0, Real.cos (exp_u l)), (0b1111, -(exp_v l) * Real.sin (exp_u l))] ++
    rmv_mul
      (rmv_mul [(0, Real.sin (exp_u l)), (0b1111, exp_v l * Real.cos (exp_u l))]
        [(0, 1 / exp_u l), (0b1111, -(exp_v l) / -(rcoeff (line_sq l) 0))])
      (line_rmv l)

/-- `pga::exp` (`pga.hpp` lines 547-574): the returned `motor<T>`, read over
the motor's eight slots. -/
noncomputable def exp_line (l : List ℝ) : List ℝ :=
  motor_elements.map (rcoeff (exp_res l))

/-- The motor obtained by composing `rotor(pi/2, 0, 0, 1)` with
`translator(1, 0, 0, 1)` through the engine, written out slot by slot. -/
noncomputable def cex_m : List ℝ :=
  [Real.cos (0.5 * (Real.pi / 2)), 0, 0, Real.sin (0.5 * (Real.pi / 2)), 0,
    -Real.sin (0.5 * (Real.pi / 2)), 0, 0]

/-- Slot-level evaluation of the composed motor at the counterexample input:
only the scalar, `e12` and `e13` slots are populated (the rotor's `ie` never
multiplies by its `x`/`y` ids and the translator's `ie` only involves its
`d` and `x` ids, which are 0 here). -/
theorem cex_motor_eval :
    compose_motor (Real.pi / 2) 0 0 1 1 0 0 1 = cex_m := by
  have h00 : blade_sign 0 0 = ⟨1, 1⟩ := by decide
  have h60 : blade_sign 6 0 = ⟨1, 1⟩ := by decide
  have hA0 : blade_sign 10 0 = ⟨1, 1⟩ := by decide
  simp [compose_motor, cex_m, motor_elements, rcoeff, rmv_mul, rmv_of, mv_eval,
    eval_tm, eval_mon, eval_ind, rotor_ie, translator_ie, rotor_data,
    translator_data, ratToField, one, zero, minus_one, minus_one_half, ratOfInt,
    h00, h60, hA0]

/-- The pseudoscalar slot of the self-product of the bivector `log` extracts
from `cex_m` is exactly zero (every blade pair reaching the pseudoscalar has
a zero factor). -/
theorem cex_line_sq_ps_zero : rcoeff (line_sq (log_l cex_m)) 15 = 0 := by
  simp [cex_m, log_l, line_sq, line_rmv, rmv_of, mv_eval, eval_tm, eval_mon,
    eval_ind, line_ie, rmv_mul, rcoeff, ratToField, one]

/-- Hence `p2 = -l2[1] / (2 s2) = 0` inside `log` at the counterexample. -/
theorem cex_p2_eq_zero : log_p2 cex_m = 0 := by
  simp [log_p2, cex_line_sq_ps_zero]

/-- Hence `v = 0` inside `log` at the counterexample: both branches of the
`|s1| < 1e-6` test compute a quotient with numerator zero (`p1 = 0` in one,
`p2 = 0` in the other). -/
theorem cex_v_eq_zero : log_v cex_m = 0 := by
  simp only [log_v, cex_p2_eq_zero]
  simp [cex_m]

/-- All slots of the line produced by `log` at the counterexample are zero
except the `dy` slot (`0b101`): in particular the `dz` slot is lost because
the `line(entity)` constructor reads the absent blade `0b100`. -/
theorem cex_log_zero_slots :
    rcoeff (log_res cex_m) 3 = 0 ∧ rcoeff (log_res cex_m) 4 = 0 ∧
    rcoeff (log_res cex_m) 9 = 0 ∧ rcoeff (log_res cex_m) 10 = 0 ∧
    rcoeff (log_res cex_m) 12 = 0 := by
  simp only [log_res, cex_p2_eq_zero, cex_v_eq_zero]
  norm_num [rmv_mul, rcoeff, line_rmv, rmv_of, mv_eval, eval_tm, eval_mon, eval_ind,
    line_ie, log_l, cex_m, ratToField, one,
    (show (15 : Nat) ^^^ 3 = 12 from rfl), (show (15 : Nat) ^^^ 5 = 10 from rfl),
    (show (15 : Nat) ^^^ 6 = 9 from rfl), (show (15 : Nat) ^^^ 9 = 6 from rfl),
    (show (15 : Nat) ^^^ 10 = 5 from rfl), (show (15 : Nat) ^^^ 12 = 3 from rfl)]

/-- The line returned by `log` at the counterexample, as a data array: only
the `dy` field can be populated. -/
theorem cex_log_eval :
    log_motor cex_m = [0, rcoeff (log_res cex_m) 5, 0, 0, 0, 0] := by
  obtain ⟨z3, z4, z9, z10, z12⟩ := cex_log_zero_slots
  simp [log_motor, line_ctor_elements, z3, z4, z9, z10, z12]

/-- For a line whose only populated field is `dy`, the `v` computed inside
`exp` is zero (the self-product has no pseudoscalar part). -/
theorem exp_v_dy_only_zero (D : ℝ) : exp_v [0, D, 0, 0, 0, 0] = 0 := by
  have h : rcoeff (line_sq ([0, D, 0, 0, 0, 0] : List ℝ)) 15 = 0 := by
    simp [line_sq, line_rmv, rmv_of, mv_eval, eval_tm, eval_mon, eval_ind,
      line_ie, rmv_mul, rcoeff, ratToField, one]
  simp [exp_v, h]

/-- For a line whose only populated field is `dy`, the motor produced by
`exp` has an exactly zero `e12` slot (slot index 3): its only bivector
contribution sits at `e13`. -/
theorem exp_line_e12_zero (D : ℝ) : (exp_line [0, D, 0, 0, 0, 0]).getD 3 0 = 0 := by
  simp only [exp_line, motor_elements, List.map_cons, List.map_nil, exp_res,
    exp_v_dy_only_zero]
  norm_num [rmv_mul, rcoeff, line_rmv, rmv_of, mv_eval, eval_tm, eval_mon, eval_ind,
    line_ie, ratToField, one,
    (show (15 : Nat) ^^^ 3 = 12 from rfl), (show (15 : Nat) ^^^ 5 = 10 from rfl),
    (show (15 : Nat) ^^^ 6 = 9 from rfl), (show (15 : Nat) ^^^ 9 = 6 from rfl),
    (show (15 : Nat) ^^^ 10 = 5 from rfl), (show (15 : Nat) ^^^ 12 = 3 from rfl)]

/-- C4 (code defect). For the motor `m` composed from `rotor(pi/2, 0, 0, 1)`
and `translator(1, 0, 0, 1)`, `exp(log(m))` does not reproduce `m`: the
`e12` slot of the round trip is exactly 0 while `m` carries
`sin(pi/4) = sqrt(2)/2` there, far beyond any floating tolerance.  The
round trip loses the `e12` coordinate because `log`'s result passes through
the `line(entity)` constructor, whose blade list reads `0b100` instead of
`0b110`, and the composed motor itself is skewed by the rotor `ie`'s
monomial offsets. -/
theorem motor_exp_log_roundtrip_bug :
    exp_line (log_motor (compose_motor (Real.pi / 2) 0 0 1 1 0 0 1))
      ≠ compose_motor (Real.pi / 2) 0 0 1 1 0 0 1 := by
  intro hEq
  rw [cex_motor_eval, cex_log_eval] at hEq
  have h6 : (exp_line [0, rcoeff (log_res cex_m) 5, 0, 0, 0, 0]).getD 3 (0 : ℝ)
      = cex_m.getD 3 0 := by rw [hEq]
  rw [exp_line_e12_zero] at h6
  have hgd : cex_m.getD 3 0 = Real.sin (0.5 * (Real.pi / 2)) := by simp [cex_m]
  rw [hgd] at h6
  have hs : 0 < Real.sin (0.5 * (Real.pi / 2)) := by
    have hq : (0.5 : ℝ) * (Real.pi / 2) = Real.pi / 4 := by ring
    rw [hq]
    exact Real.sin_pos_of_pos_of_lt_pi (by positivity)
      (div_lt_self Real.pi_pos (by norm_num))
  exact absurd h6.symm (ne_of_gt hs)
